import Mathlib

/-!
Verification development for the margin-protection dashboard ingester
(`dashboard/main.py`).  The Python program parses report filenames into
metadata, tags tabular CSV data with that metadata, groups tagged tables by
rule, maintains a per-source watermark table, and reports the loaded table
names.

Shallow embedding conventions:
* Python strings are `List Char`.  Regex character classes are modelled over
  this alphabet; the `\d` class is modelled as the ASCII digits (the filename
  alphabet used throughout the program and its tests).
* `datetime.datetime` values produced by `strptime` with the program's
  `_DATE_FORMAT` are modelled as `Timestamp` records (always UTC, millisecond
  precision, microsecond = millisecond * 1000).
* Python `ValueError` is modelled as `FilenameError`; the two constructors
  record which statement raised it (the `raise ValueError('Invalid filename')`
  after a failed `re.fullmatch`, or `datetime.strptime` itself).  The caller
  `load_files_into_dataframes` catches both alike, exactly as `except
  ValueError` does.
* pandas DataFrames are modelled row-orientedly (`header` plus `rows`); cells
  carry the dtype the pipeline actually produces (`string`, the tz-aware
  `Date` timestamps, and the `bool` cast of the `anomalous` column).
* stderr diagnostics are modelled as an explicit output list of the offending
  filenames.
-/

/-- A UTC instant with millisecond precision, the decoded form of the
`date` group under `_DATE_FORMAT = '%Y-%m-%dT%H:%M:%S.%f%z'`. -/
structure Timestamp where
  year : Nat
  month : Nat
  day : Nat
  hour : Nat
  minute : Nat
  second : Nat
  millisecond : Nat
deriving DecidableEq, Repr

/-- The metadata record `ReportName` from `main.py`: the parsed components of
a report filename. -/
structure ReportName where
  filename : List Char
  category : List Char
  label : List Char
  rule : List Char
  sheet_id : List Char
  date : Timestamp
deriving DecidableEq, Repr

/-- The Python `ValueError` raised by `ReportName.with_filename`, tagged by
the raising site: `invalidFilename` is `raise ValueError('Invalid filename')`
after `re.fullmatch` returns `None`; `invalidDate` is the `ValueError` raised
inside `datetime.datetime.strptime`.  Both are the same Python exception
class, and callers catch them with one `except ValueError` clause. -/
inductive FilenameError where
  | invalidFilename : FilenameError
  | invalidDate : FilenameError
deriving DecidableEq, Repr

/-- Numeric value of an ASCII digit character. -/
def digitVal (c : Char) : Nat := c.toNat - '0'.toNat

/-- Gregorian leap-year rule, as implemented by Python's `datetime`. -/
def isLeapYear (y : Nat) : Bool :=
  y % 4 == 0 && (y % 100 != 0 || y % 400 == 0)

/-- Number of days in a month, as validated by Python's `datetime`
constructor. -/
def daysInMonth (y m : Nat) : Nat :=
  if m == 2 then (if isLeapYear y then 29 else 28)
  else if m == 4 || m == 6 || m == 9 || m == 11 then 30
  else 31

/-- The regex `\d` class on the program's filename alphabet: an ASCII
digit. -/
def isDig (c : Char) : Bool := 48 ≤ c.toNat && c.toNat ≤ 57

/-- The shape accepted by the regex `date` group
`\d{4}\-\d{2}-\d{2}T\d{2}:\d{2}:\d{2}.\d{3}Z`: exactly 24 characters, digits
and punctuation as written.  The character before the three millisecond
digits is the UNESCAPED regex `.`, which matches any character other than a
newline, not only a literal period. -/
def dateGroupShape (d : List Char) : Bool :=
  match d with
  | [y1, y2, y3, y4, p1, mo1, mo2, p2, d1, d2, t, h1, h2, c1, mi1, mi2, c2,
     s1, s2, dot, f1, f2, f3, z] =>
    isDig y1 && isDig y2 && isDig y3 && isDig y4 && (p1 == '-') &&
    isDig mo1 && isDig mo2 && (p2 == '-') && isDig d1 && isDig d2 &&
    (t == 'T') && isDig h1 && isDig h2 && (c1 == ':') && isDig mi1 &&
    isDig mi2 && (c2 == ':') && isDig s1 && isDig s2 && (dot != '\n') &&
    isDig f1 && isDig f2 && isDig f3 && (z == 'Z')
  | _ => false

/-- Model of the range validation Python applies while decoding a date: the
`_strptime` field regexes and the `datetime.datetime` constructor together
reject a year outside MINYEAR..MAXYEAR (1..9999), month 0 or above 12, day
0 or beyond the month's length, hour above 23, minute or second above 59,
and a microsecond above 999999 (millisecond above 999). -/
def validateDatetime (t : Timestamp) : Option Timestamp :=
  if 1 ≤ t.year && t.year ≤ 9999 && 1 ≤ t.month && t.month ≤ 12 &&
     1 ≤ t.day && t.day ≤ daysInMonth t.year t.month && t.hour ≤ 23 &&
     t.minute ≤ 59 && t.second ≤ 59 && t.millisecond ≤ 999
  then some t
  else none

/-- Model of `datetime.datetime.strptime(date, '%Y-%m-%dT%H:%M:%S.%f%z')` on
the 24-character strings delivered by the regex `date` group (on which the
fixed-width reading below coincides with Python's variable-width one).  It
requires a literal period before the milliseconds, reads the numeric fields,
and validates them through the `datetime` constructor. -/
def strptimeMillis (d : List Char) : Option Timestamp :=
  match d with
  | [y1, y2, y3, y4, p1, mo1, mo2, p2, d1, d2, t, h1, h2, c1, mi1, mi2, c2,
     s1, s2, dot, f1, f2, f3, z] =>
    if isDig y1 && isDig y2 && isDig y3 && isDig y4 && (p1 == '-') &&
       isDig mo1 && isDig mo2 && (p2 == '-') && isDig d1 && isDig d2 &&
       (t == 'T') && isDig h1 && isDig h2 && (c1 == ':') && isDig mi1 &&
       isDig mi2 && (c2 == ':') && isDig s1 && isDig s2 &&
       (dot == '.') && isDig f1 && isDig f2 && isDig f3 && (z == 'Z')
    then
      validateDatetime
        ⟨digitVal y1 * 1000 + digitVal y2 * 100 + digitVal y3 * 10 +
            digitVal y4,
          digitVal mo1 * 10 + digitVal mo2, digitVal d1 * 10 + digitVal d2,
          digitVal h1 * 10 + digitVal h2, digitVal mi1 * 10 + digitVal mi2,
          digitVal s1 * 10 + digitVal s2,
          digitVal f1 * 100 + digitVal f2 * 10 + digitVal f3⟩
    else none
  | _ => none

/-- Splits a list at the first occurrence of `sep`, returning the part before
it and the part after it; `none` when `sep` does not occur.  This is how a
greedy `[^sep]*` group followed by a literal `sep` consumes its input. -/
def splitFirst (sep : Char) : List Char → Option (List Char × List Char)
  | [] => none
  | c :: cs =>
    if c = sep then some ([], cs)
    else
      match splitFirst sep cs with
      | none => none
      | some (pre, post) => some (c :: pre, post)

/-- The last four characters of the pattern, `.csv`, with the period again an
UNESCAPED regex `.`: any non-newline character followed by the literal
letters `csv`. -/
def csvSuffixShape (s : List Char) : Bool :=
  match s with
  | [c, c1, c2, c3] => (c != '\n') && (c1 == 'c') && (c2 == 's') && (c3 == 'v')
  | _ => false

/-- Model of `ReportName.with_filename`: `re.fullmatch` of

`(?P<category>[^_]+)\_(?P<label>[^_]*)\_(?P<rule>[^_]+)\_(?P<sheet_id>.+?)\_`
`(?P<date>\d{4}\-\d{2}-\d{2}T\d{2}:\d{2}:\d{2}.\d{3}Z).csv`

followed by `strptime` of the `date` group.  Because `category`, `label` and
`rule` exclude the underscore and each is followed by a literal underscore,
they must end exactly at the first three underscores; because the `date`
group and the suffix have fixed width 24 + 4 and are preceded by a literal
underscore, the lazy `sheet_id` (one or more non-newline characters, which
may include underscores) must end exactly 29 characters before the end of
the string.  A failed match raises `ValueError('Invalid filename')`; a match
whose `date` group `strptime` rejects raises strptime's `ValueError`. -/
def ReportName.with_filename (filename : List Char) :
    Except FilenameError ReportName :=
  match splitFirst '_' filename with
  | none => .error .invalidFilename
  | some (category, rest1) =>
    if category = [] then .error .invalidFilename
    else
      match splitFirst '_' rest1 with
      | none => .error .invalidFilename
      | some (label, rest2) =>
        match splitFirst '_' rest2 with
        | none => .error .invalidFilename
        | some (rule, rest3) =>
          if rule = [] then .error .invalidFilename
          else
            if rest3.length < 30 then .error .invalidFilename
            else
              match rest3.drop (rest3.length - 29) with
              | '_' :: rest4 =>
                if dateGroupShape (rest4.take 24) &&
                   csvSuffixShape (rest4.drop 24) &&
                   (rest3.take (rest3.length - 29)).all (· != '\n')
                then
                  match strptimeMillis (rest4.take 24) with
                  | some t =>
                    .ok ⟨filename, category, label, rule,
                      rest3.take (rest3.length - 29), t⟩
                  | none => .error .invalidDate
                else .error .invalidFilename
              | _ => .error .invalidFilename

/-- A cell of an in-memory pandas DataFrame in this pipeline.  `read_csv`
with `dtype='string'` yields text cells; `fill_dataframe` injects tz-aware
timestamp cells; the `anomalous` cast yields boolean cells; `nan` is the
missing-value padding `pd.concat` inserts when outer-joining frames with
divergent columns. -/
inductive Cell where
  | str : List Char → Cell
  | tsUtc : Timestamp → Cell
  | boolean : Bool → Cell
  | nan : Cell
deriving DecidableEq, Repr

/-- A pandas DataFrame, modelled row-orientedly: the column names in order,
and the rows, each holding one cell per column.  All frames in this pipeline
carry the default range index, so positional row identity is the index. -/
structure DataFrame where
  header : List (List Char)
  rows : List (List Cell)
deriving DecidableEq, Repr

/-- The decoded CSV payload of a downloaded file: a header row of column
names and the data rows as text fields. -/
structure CsvData where
  header : List (List Char)
  rows : List (List (List Char))
deriving DecidableEq, Repr

/-- Model of `_normalize`: `string.replace(' ', '_').replace('.', '')` —
replace every space with an underscore, then remove every period. -/
def _normalize (s : List Char) : List Char :=
  (s.map fun c => if c = ' ' then '_' else c).filter fun c => c ≠ '.'

/-- Model of `fill_dataframe`: builds a one-column frame `Date` whose every
row is `pd.to_datetime(report_name.date)` (a single broadcast tz-aware
value, one per row of `df`), joins the original frame onto it on the shared
range index, and then normalizes every column name of the joined frame. -/
def fill_dataframe (df : DataFrame) (report_name : ReportName) : DataFrame :=
  ⟨("Date".toList :: df.header).map _normalize,
   df.rows.map fun row => Cell.tsUtc report_name.date :: row⟩

/-- Truth value Python assigns a string: nonempty strings are truthy.  This
is the conversion numpy and pandas apply when casting a text column with
`dtype='bool'` — the TEXT of the cell is not parsed, so the cell `"False"`
(a nonempty string) casts to `True`. -/
def pyTruthy (s : List Char) : Bool := !s.isEmpty

/-- The elementwise effect of `pd.Series(column, dtype='bool')` on a text
cell. -/
def castBoolCell : Cell → Cell
  | Cell.str s => Cell.boolean (pyTruthy s)
  | c => c

/-- Model of `load_data_into_pandas` after the download has been drained:
`pd.read_csv(file, dtype='string')` types every column as text, with no
numeric or date inference; then, if a column named `anomalous` exists, that
column (pandas resolves the label to its position; `read_csv` mangles
duplicate header names, so the label is unique) is re-bound to
`pd.Series(df['anomalous'], dtype='bool')`, the elementwise truthiness cast
of its text cells. -/
def load_data_into_pandas (csv : CsvData) : DataFrame :=
  let df : DataFrame := ⟨csv.header, csv.rows.map (·.map Cell.str)⟩
  match csv.header.findIdx? (· = "anomalous".toList) with
  | some j => ⟨df.header, df.rows.map fun row => row.modify castBoolCell j⟩
  | none => df

/-- A row of the `last_report` watermark table: the label and report
timestamp last recorded for a sheet. -/
structure Watermark where
  label : List Char
  date : Timestamp
deriving DecidableEq, Repr

/-- Model of `last_report_table.loc[sheet_id] = [label, date]` on a frame
indexed by `Sheet_ID`: when the key is present its row is overwritten, and
otherwise a new row is appended at the end (pandas `.loc` enlargement). -/
def updateWatermark (tbl : List (List Char × Watermark)) (sid : List Char)
    (w : Watermark) : List (List Char × Watermark) :=
  if tbl.any (·.1 = sid) then
    tbl.map fun e => if e.1 = sid then (e.1, w) else e
  else tbl ++ [(sid, w)]

/-- Model of `dataframes[rule].append(df)` on a `defaultdict(list)`: append
to the existing bucket, or create a fresh singleton bucket at the end
(Python dicts preserve insertion order). -/
def appendBucket (b : List (List Char × List DataFrame)) (k : List Char)
    (df : DataFrame) : List (List Char × List DataFrame) :=
  if b.any (·.1 = k) then
    b.map fun e => if e.1 = k then (e.1, e.2 ++ [df]) else e
  else b ++ [(k, [df])]

/-- The column set of a `pd.concat` outer join with `sort=False`: the union
of the frames' column names in order of first appearance (the first frame's
order wins, new columns follow as encountered). -/
def unionHeaders (hs : List (List (List Char))) : List (List Char) :=
  hs.foldl
    (fun acc h => h.foldl (fun acc c => if c ∈ acc then acc else acc ++ [c])
      acc)
    []

/-- One source row aligned to the result columns: for each result column,
the cell under the same-named column of the row's own frame (pandas
resolves a label to its first position), and NaN padding where the frame
lacks that column.  The NaN default of `getD` is only reached for frames
more ragged than this pipeline produces. -/
def alignRow (header : List (List Char)) (cols : List (List Char))
    (row : List Cell) : List Cell :=
  cols.map fun c =>
    match header.findIdx? (· = c) with
    | some j => row.getD j Cell.nan
    | none => Cell.nan

/-- Model of `pd.concat(v)`: the result carries the union of the frames'
columns (first-appearance order, `sort=False`), and stacks every frame's
rows in order, each row aligned by column NAME to the result columns with
NaN padding for columns its frame lacks. -/
def concatAll (dfs : List DataFrame) : DataFrame :=
  ⟨unionHeaders (dfs.map (·.header)),
   (dfs.map fun d =>
     d.rows.map (alignRow d.header (unionHeaders (dfs.map (·.header))))).flatten⟩

/-- The mutable state threaded through the loop of
`load_files_into_dataframes`: the watermark frame, the per-rule buckets of
tagged frames, and the stderr diagnostics emitted so far (modelled as the
list of offending filenames, one entry per `print(..., file=sys.stderr)`). -/
structure AggState where
  wm : List (List Char × Watermark)
  buckets : List (List Char × List DataFrame)
  errs : List (List Char)
deriving Repr

/-- One iteration of the loop body of `load_files_into_dataframes` on a
`{name, id}` file reference: parse the name; on `ValueError` (either
constructor — the `except ValueError` clause does not distinguish them)
print a diagnostic and `continue`; on success upsert the watermark row for
the sheet, download and materialize the file's CSV (`content` maps a file id
to its payload), tag it, and append it to the rule's bucket. -/
def aggStep (content : List Char → CsvData) (st : AggState)
    (name id : List Char) : AggState :=
  match ReportName.with_filename name with
  | .error _ => ⟨st.wm, st.buckets, st.errs ++ [name]⟩
  | .ok rn =>
    ⟨updateWatermark st.wm rn.sheet_id ⟨rn.label, rn.date⟩,
     appendBucket st.buckets rn.rule
       (fill_dataframe (load_data_into_pandas (content id)) rn),
     st.errs⟩

/-- The loop of `load_files_into_dataframes` over the file references in
list order. -/
def aggLoop (content : List Char → CsvData) (st : AggState) :
    List (List Char × List Char) → AggState
  | [] => st
  | (name, id) :: files => aggLoop content (aggStep content st name id) files

/-- Model of `load_files_into_dataframes`: runs the loop from the incoming
watermark table and empty buckets, then returns the updated watermark table,
the dictionary comprehension `{k: pd.concat(v) for k, v in
dataframes.items()}`, and the stderr diagnostics. -/
def load_files_into_dataframes (content : List Char → CsvData)
    (last_report_table : List (List Char × Watermark))
    (drive_files : List (List Char × List Char)) :
    List (List Char × Watermark) × List (List Char × DataFrame) ×
      List (List Char) :=
  let st := aggLoop content ⟨last_report_table, [], []⟩ drive_files
  (st.wm, st.buckets.map fun e => (e.1, concatAll e.2), st.errs)

/-- Model of the value of the `tables` field of the JSON response
`{'tables': list(dataframes.keys())}` returned by `import_dashboard`: the
keys of the rule-grouped map, exactly as parsed from the filenames. -/
def dashboardTables (content : List Char → CsvData)
    (last_report_table : List (List Char × Watermark))
    (drive_files : List (List Char × List Char)) : List (List Char) :=
  (load_files_into_dataframes content last_report_table drive_files).2.1.map
    (·.1)

/-- The BigQuery destination table ids chosen by `load_data_into_bigquery`:
one per rule in the map, `table_id=_normalize(rule)`. -/
def bigqueryTableIds (dataframes : List (List Char × DataFrame)) :
    List (List Char) :=
  dataframes.map fun e => _normalize e.1

/-- The successfully parsed report names of a batch, in list order. -/
def validParses (drive_files : List (List Char × List Char)) :
    List ReportName :=
  drive_files.filterMap fun f => (ReportName.with_filename f.1).toOption

/-- The ASCII character of a decimal digit. -/
def digitChar : Nat → Char
  | 0 => '0' | 1 => '1' | 2 => '2' | 3 => '3' | 4 => '4'
  | 5 => '5' | 6 => '6' | 7 => '7' | 8 => '8' | _ => '9'

/-- Two-digit zero-padded decimal rendering. -/
def pad2 (n : Nat) : List Char :=
  [digitChar (n / 10 % 10), digitChar (n % 10)]

/-- Three-digit zero-padded decimal rendering. -/
def pad3 (n : Nat) : List Char :=
  digitChar (n / 100 % 10) :: pad2 n

/-- Four-digit zero-padded decimal rendering. -/
def pad4 (n : Nat) : List Char :=
  digitChar (n / 1000 % 10) :: pad3 n

/-- Renders a timestamp back to the literal wire form
`YYYY-MM-DDTHH:MM:SS.mmmZ` (the millisecond-UTC rendering named by the
spec's round-trip property). -/
def formatTimestamp (t : Timestamp) : List Char :=
  pad4 t.year ++ '-' :: pad2 t.month ++ '-' :: pad2 t.day ++
    'T' :: pad2 t.hour ++ ':' :: pad2 t.minute ++ ':' :: pad2 t.second ++
    '.' :: pad3 t.millisecond ++ ['Z']

/-- Reconstruction of a filename from parsed fields, the operation the
spec's round-trip property describes: join category, label, rule and
source id with underscores, append the formatted timestamp and `.csv`. -/
def reconstructFilename (rn : ReportName) : List Char :=
  rn.category ++ '_' :: rn.label ++ '_' :: rn.rule ++ '_' :: rn.sheet_id ++
    '_' :: formatTimestamp rn.date ++ ".csv".toList

/-- The exact set of strings `ReportName.with_filename` accepts: five
underscore-delimited segments (the fourth may itself contain underscores and
must avoid newlines), a date group of the regex's 24-character shape whose
`strptime` decode succeeds, and then one arbitrary non-newline character
followed by the literal letters `csv`, with nothing left over. -/
def acceptedShape (f : List Char) : Prop :=
  ∃ (cat lbl rul sid ds : List Char) (c : Char) (t : Timestamp),
    f = cat ++ '_' :: (lbl ++ '_' :: (rul ++ '_' ::
      (sid ++ '_' :: (ds ++ [c, 'c', 's', 'v'])))) ∧
    cat ≠ [] ∧ '_' ∉ cat ∧ '_' ∉ lbl ∧ rul ≠ [] ∧ '_' ∉ rul ∧
    sid ≠ [] ∧ (∀ ch ∈ sid, ch ≠ '\n') ∧ c ≠ '\n' ∧
    dateGroupShape ds = true ∧ strptimeMillis ds = some t

/-- Value stored under a key in an association list (first match), the way
a pandas index or Python dict resolves a label. -/
def lookupA {β : Type} (l : List (List Char × β)) (k : List Char) :
    Option β :=
  (l.find? fun e => e.1 = k).map (·.2)

/-- Whether a filename parses (no `ValueError` of either kind). -/
def parseOk (name : List Char) : Bool :=
  (ReportName.with_filename name).toOption.isSome

/-- The successfully parsed file occupying the latest list position among
those carrying the given sheet id. -/
def lastReportFor (s : List Char) (fs : List (List Char × List Char)) :
    Option ReportName :=
  (validParses fs).reverse.find? fun rn => rn.sheet_id = s

/-- The tagged frames a batch contributes to one rule: for each valid file
whose rule matches, the materialized CSV tagged with the file's metadata,
in batch order. -/
def taggedFor (content : List Char → CsvData)
    (fs : List (List Char × List Char)) (r : List Char) : List DataFrame :=
  fs.filterMap fun f =>
    match ReportName.with_filename f.1 with
    | .ok rn =>
      if rn.rule = r then
        some (fill_dataframe (load_data_into_pandas (content f.2)) rn)
      else none
    | .error _ => none

/-- Characterization of a successful `splitFirst`: the input is the prefix,
the separator, and the suffix, and the prefix avoids the separator. -/
theorem splitFirst_eq_some (sep : Char) :
    ∀ s a b : List Char, splitFirst sep s = some (a, b) →
      s = a ++ sep :: b ∧ sep ∉ a := by
  intro s
  induction s with
  | nil => intro a b h; simp [splitFirst] at h
  | cons c cs ih =>
    intro a b h
    by_cases hc : c = sep
    · simp [splitFirst, hc] at h
      obtain ⟨ha, hb⟩ := h
      subst ha; subst hb; subst hc
      simp
    · simp only [splitFirst, if_neg hc] at h
      cases hsp : splitFirst sep cs with
      | none => rw [hsp] at h; simp at h
      | some pr =>
        obtain ⟨pre, post⟩ := pr
        rw [hsp] at h
        simp only [Option.some.injEq, Prod.mk.injEq] at h
        obtain ⟨ha, hb⟩ := h
        obtain ⟨hs, hmem⟩ := ih pre post hsp
        subst ha; subst hb; subst hs
        constructor
        · simp
        · intro hmem2
          rcases List.mem_cons.1 hmem2 with h1 | h1
          · exact hc h1.symm
          · exact hmem h1

/-- Computation of `splitFirst` on a string assembled from a separator-free
prefix, the separator, and a suffix. -/
theorem splitFirst_append (sep : Char) :
    ∀ a b : List Char, sep ∉ a → splitFirst sep (a ++ sep :: b) = some (a, b) := by
  intro a
  induction a with
  | nil => intro b _; simp [splitFirst]
  | cons c cs ih =>
    intro b h
    have hc : ¬ c = sep := fun hcs => h (hcs ▸ List.mem_cons_self c cs)
    have hcs : sep ∉ cs := fun hm => h (List.mem_cons_of_mem c hm)
    simp only [List.cons_append, splitFirst, if_neg hc, List.append_eq,
      ih b hcs]

/-- A string passing the `date` group's shape test has exactly the group's
24 characters. -/
theorem dateGroupShape_length {d : List Char} (h : dateGroupShape d = true) :
    d.length = 24 := by
  unfold dateGroupShape at h
  split at h
  · simp_all
  · simp at h

/-- A string passing the suffix test is one non-newline character followed
by `csv`. -/
theorem csvSuffixShape_elim {s : List Char} (h : csvSuffixShape s = true) :
    ∃ c, s = [c, 'c', 's', 'v'] ∧ c ≠ '\n' := by
  unfold csvSuffixShape at h
  split at h
  · rename_i c c1 c2 c3
    refine ⟨c, ?_, ?_⟩
    · simp only [Bool.and_eq_true, beq_iff_eq] at h
      simp [h.1.1.2, h.1.2, h.2]
    · simp only [Bool.and_eq_true, bne_iff_ne] at h
      exact h.1.1.1
  · simp at h

/-- Forward characterization of a successful parse: the filename decomposes
into the five fields with the separator discipline of the pattern, a date
group of the regex's shape whose `strptime` gives the stored timestamp, and
the four-character suffix. -/
theorem with_filename_ok_elim {f : List Char} {rn : ReportName}
    (h : ReportName.with_filename f = .ok rn) :
    ∃ ds c,
      f = rn.category ++ '_' :: rn.label ++ '_' :: rn.rule ++ '_' ::
        rn.sheet_id ++ '_' :: ds ++ [c, 'c', 's', 'v'] ∧
      rn.filename = f ∧
      rn.category ≠ [] ∧ '_' ∉ rn.category ∧ '_' ∉ rn.label ∧
      rn.rule ≠ [] ∧ '_' ∉ rn.rule ∧
      rn.sheet_id ≠ [] ∧ (∀ ch ∈ rn.sheet_id, ch ≠ '\n') ∧ c ≠ '\n' ∧
      dateGroupShape ds = true ∧ strptimeMillis ds = some rn.date := by
  unfold ReportName.with_filename at h
  split at h
  · simp at h
  · rename_i category rest1 heq1
    split at h
    · simp at h
    · rename_i hcat
      split at h
      · simp at h
      · rename_i label rest2 heq2
        split at h
        · simp at h
        · rename_i rule rest3 heq3
          split at h
          · simp at h
          · rename_i hrule
            split at h
            · simp at h
            · rename_i hn
              split at h
              · rename_i rest4 heq4
                split at h
                · rename_i hcheck
                  split at h
                  · rename_i t heq5
                    simp only [Except.ok.injEq] at h
                    subst h
                    obtain ⟨hf1, hm1⟩ :=
                      splitFirst_eq_some '_' f category rest1 heq1
                    obtain ⟨hf2, hm2⟩ :=
                      splitFirst_eq_some '_' rest1 label rest2 heq2
                    obtain ⟨hf3, hm3⟩ :=
                      splitFirst_eq_some '_' rest2 rule rest3 heq3
                    simp only [Bool.and_eq_true] at hcheck
                    obtain ⟨⟨hds, hsuf⟩, hall⟩ := hcheck
                    obtain ⟨c, hsufeq, hcnl⟩ := csvSuffixShape_elim hsuf
                    set ds := rest4.take 24 with hds_def
                    set sid := rest3.take (rest3.length - 29) with hsid_def
                    have e4 : rest4 = ds ++ [c, 'c', 's', 'v'] := by
                      conv_lhs => rw [← List.take_append_drop 24 rest4]
                      rw [hsufeq]
                    have e3 : rest3 = sid ++ '_' :: rest4 := by
                      conv_lhs =>
                        rw [← List.take_append_drop (rest3.length - 29) rest3]
                      rw [heq4]
                    have hpos : 0 < sid.length := by
                      rw [hsid_def, List.length_take]
                      omega
                    refine ⟨ds, c, ?_, rfl, hcat, hm1, hm2, hrule, hm3,
                      List.length_pos.mp hpos, ?_, hcnl, hds, heq5⟩
                    · dsimp only
                      rw [hf1, hf2, hf3, e3, e4]
                      simp [List.cons_append, List.append_assoc]
                    · intro ch hch
                      exact bne_iff_ne.mp (List.all_eq_true.mp hall ch hch)
                  · simp at h
                · simp at h
              · simp at h

/-- Backward construction: any string assembled from fields respecting the
pattern's character disciplines parses successfully to exactly those
fields. -/
theorem with_filename_build {cat lbl rul sid ds : List Char} {c : Char}
    {t : Timestamp}
    (hcat : cat ≠ []) (hcatu : '_' ∉ cat) (hlblu : '_' ∉ lbl)
    (hrul : rul ≠ []) (hrulu : '_' ∉ rul) (hsid : sid ≠ [])
    (hsidn : ∀ ch ∈ sid, ch ≠ '\n') (hds : dateGroupShape ds = true)
    (hc : c ≠ '\n') (ht : strptimeMillis ds = some t) :
    ReportName.with_filename
      (cat ++ '_' :: (lbl ++ '_' :: (rul ++ '_' ::
        (sid ++ '_' :: (ds ++ [c, 'c', 's', 'v']))))) =
      .ok ⟨cat ++ '_' :: (lbl ++ '_' :: (rul ++ '_' ::
        (sid ++ '_' :: (ds ++ [c, 'c', 's', 'v'])))),
        cat, lbl, rul, sid, t⟩ := by
  have h24 : ds.length = 24 := dateGroupShape_length hds
  have hsl : 0 < sid.length := List.length_pos.mpr hsid
  have hr3len : (sid ++ '_' :: (ds ++ [c, 'c', 's', 'v'])).length =
      sid.length + 29 := by
    simp [List.length_append, h24]
  have hlt : ¬ (sid.length + 29 < 30) := by omega
  have htk : (ds ++ [c, 'c', 's', 'v']).take 24 = ds := by
    rw [← h24]; exact List.take_left ds _
  have hdr : (ds ++ [c, 'c', 's', 'v']).drop 24 = [c, 'c', 's', 'v'] := by
    rw [← h24]; exact List.drop_left ds _
  have hsufb : csvSuffixShape [c, 'c', 's', 'v'] = true := by
    simp [csvSuffixShape, hc]
  have hallb : (sid.all fun x => x != '\n') = true :=
    List.all_eq_true.mpr fun ch hch => bne_iff_ne.mpr (hsidn ch hch)
  unfold ReportName.with_filename
  simp only [splitFirst_append '_' cat _ hcatu, if_neg hcat,
    splitFirst_append '_' lbl _ hlblu, splitFirst_append '_' rul _ hrulu,
    if_neg hrul, hr3len, if_neg hlt, Nat.add_sub_cancel,
    List.take_left sid ('_' :: (ds ++ [c, 'c', 's', 'v'])),
    List.drop_left sid ('_' :: (ds ++ [c, 'c', 's', 'v'])),
    htk, hdr, hds, hsufb, hallb, Bool.and_self, if_pos, ht]

/-- C3 (amended): a string is accepted by the parser exactly when it has the
five-segment shape with a well-formed, calendar-valid timestamp group —
but the terminator is any single non-newline character followed by `csv`
(the regex spells `.csv` with an unescaped period), not necessarily the
literal suffix `.csv`; every other string is rejected with a `ValueError`. -/
theorem c3_accept_iff_shape (f : List Char) :
    (∃ rn, ReportName.with_filename f = .ok rn) ↔ acceptedShape f := by
  constructor
  · rintro ⟨rn, h⟩
    obtain ⟨ds, c, hshape, _, hcat, hcatu, hlblu, hrul, hrulu, hsid, hsidn,
      hc, hds, ht⟩ := with_filename_ok_elim h
    refine ⟨rn.category, rn.label, rn.rule, rn.sheet_id, ds, c, rn.date,
      ?_, hcat, hcatu, hlblu, hrul, hrulu, hsid, hsidn, hc, hds, ht⟩
    rw [hshape]
    simp [List.cons_append, List.append_assoc]
  · rintro ⟨cat, lbl, rul, sid, ds, c, t, hshape, hcat, hcatu, hlblu, hrul,
      hrulu, hsid, hsidn, hc, hds, ht⟩
    subst hshape
    exact ⟨_, with_filename_build hcat hcatu hlblu hrul hrulu hsid hsidn
      hds hc ht⟩

/-- C3 (counterexample): the claim requires every accepted filename to end
in the literal suffix `.csv`, but the parser accepts this filename ending
in `Zxcsv` — the regex's unescaped period matches the `x` — and decodes it
to the fields shown. -/
theorem c3_counterexample :
    ReportName.with_filename
        "a_b_c_d_2000-01-01T00:00:00.000Zxcsv".toList =
      .ok ⟨"a_b_c_d_2000-01-01T00:00:00.000Zxcsv".toList, "a".toList,
        "b".toList, "c".toList, "d".toList, ⟨2000, 1, 1, 0, 0, 0, 0⟩⟩ ∧
    ¬ (".csv".toList <:+ "a_b_c_d_2000-01-01T00:00:00.000Zxcsv".toList) := by
  constructor
  · rfl
  · decide

/-- C4: parsing the embedded-underscore example succeeds; the lazy
`sheet_id` group absorbs the embedded underscores, anchored by the
fixed-width timestamp, and the timestamp decodes to midnight 2000-01-01
UTC. -/
theorem c4_parse_embedded_underscores :
    ReportName.with_filename
        "1abc_2def_3ghi_4jkl_underscored_id5_2000-01-01T00:00:00.000Z.csv".toList =
      .ok ⟨"1abc_2def_3ghi_4jkl_underscored_id5_2000-01-01T00:00:00.000Z.csv".toList,
        "1abc".toList, "2def".toList, "3ghi".toList,
        "4jkl_underscored_id5".toList, ⟨2000, 1, 1, 0, 0, 0, 0⟩⟩ := by
  rfl

/-- Every rendered digit character is an ASCII digit. -/
theorem isDig_digitChar (d : Nat) : isDig (digitChar d) = true := by
  unfold digitChar
  split <;> decide

/-- Rendering then reading a reduced digit is the identity. -/
theorem digitVal_digitChar_mod (n : Nat) :
    digitVal (digitChar (n % 10)) = n % 10 := by
  have h : n % 10 < 10 := Nat.mod_lt n (by omega)
  interval_cases h : n % 10 <;> decide

/-- The rendered timestamp always has the regex date group's shape. -/
theorem dateGroupShape_formatTimestamp (t : Timestamp) :
    dateGroupShape (formatTimestamp t) = true := by
  obtain ⟨y, mo, dy, h, mi, s, ms⟩ := t
  simp only [formatTimestamp, pad4, pad3, pad2, List.cons_append,
    List.nil_append]
  simp [dateGroupShape, isDig_digitChar]

/-- A digit character's value is at most nine. -/
theorem digitVal_le_of_isDig {c : Char} (h : isDig c = true) :
    digitVal c ≤ 9 := by
  unfold isDig at h
  simp only [Bool.and_eq_true, decide_eq_true_eq] at h
  unfold digitVal
  have h0 : '0'.toNat = 48 := rfl
  omega

/-- Characterization of the constructor validation. -/
theorem validateDatetime_eq_some {t u : Timestamp}
    (h : validateDatetime t = some u) :
    t = u ∧ 1 ≤ t.year ∧ t.year ≤ 9999 ∧ 1 ≤ t.month ∧ t.month ≤ 12 ∧
    1 ≤ t.day ∧ t.day ≤ daysInMonth t.year t.month ∧ t.hour ≤ 23 ∧
    t.minute ≤ 59 ∧ t.second ≤ 59 ∧ t.millisecond ≤ 999 := by
  unfold validateDatetime at h
  split at h
  · rename_i hcond
    simp only [Option.some.injEq] at h
    simp only [Bool.and_eq_true, decide_eq_true_eq] at hcond
    obtain ⟨h9, h10⟩ := hcond
    obtain ⟨h8, h9⟩ := h9
    obtain ⟨h7, h8⟩ := h8
    obtain ⟨h6, h7⟩ := h7
    obtain ⟨h5, h6⟩ := h6
    obtain ⟨h4, h5⟩ := h5
    obtain ⟨h3, h4⟩ := h4
    obtain ⟨h2, h3⟩ := h3
    obtain ⟨h1, h2⟩ := h2
    exact ⟨h, h1, h2, h3, h4, h5, h6, h7, h8, h9, h10⟩
  · simp at h

/-- Bounds delivered by a successful `strptime`: all components lie in the
ranges Python's `datetime` enforces. -/
theorem strptimeMillis_ranges {ds : List Char} {t : Timestamp}
    (h : strptimeMillis ds = some t) :
    1 ≤ t.year ∧ t.year ≤ 9999 ∧ 1 ≤ t.month ∧ t.month ≤ 12 ∧
    1 ≤ t.day ∧ t.day ≤ daysInMonth t.year t.month ∧ t.hour ≤ 23 ∧
    t.minute ≤ 59 ∧ t.second ≤ 59 ∧ t.millisecond ≤ 999 := by
  unfold strptimeMillis at h
  split at h
  · split at h
    · obtain ⟨heq, hv⟩ := validateDatetime_eq_some h
      rw [heq] at hv
      exact hv
    · simp at h
  · simp at h

/-- No month has more than 31 days. -/
theorem daysInMonth_le_31 (y m : Nat) : daysInMonth y m ≤ 31 := by
  unfold daysInMonth
  split
  · split <;> omega
  · split <;> omega

/-- Reading back a rendered timestamp recovers it, for any timestamp within
the ranges the validation enforces. -/
theorem strptimeMillis_formatTimestamp {t : Timestamp}
    (hy1 : 1 ≤ t.year) (hy2 : t.year ≤ 9999) (hmo1 : 1 ≤ t.month)
    (hmo2 : t.month ≤ 12) (hd1 : 1 ≤ t.day)
    (hd2 : t.day ≤ daysInMonth t.year t.month) (hh : t.hour ≤ 23)
    (hmi : t.minute ≤ 59) (hs : t.second ≤ 59) (hms : t.millisecond ≤ 999) :
    strptimeMillis (formatTimestamp t) = some t := by
  obtain ⟨y, mo, dy, h, mi, s, ms⟩ := t
  dsimp only at hy1 hy2 hmo1 hmo2 hd1 hd2 hh hmi hs hms
  simp only [formatTimestamp, pad4, pad3, pad2, List.cons_append,
    List.nil_append]
  simp only [strptimeMillis, isDig_digitChar, Bool.and_self, Bool.true_and,
    beq_self_eq_true, if_true, digitVal_digitChar_mod]
  have d1 : y / 10 / 10 = y / 100 := by omega
  have d2 : y / 100 / 10 = y / 1000 := by omega
  have d3 : ms / 10 / 10 = ms / 100 := by omega
  have ey : y / 1000 % 10 * 1000 + y / 100 % 10 * 100 + y / 10 % 10 * 10 +
      y % 10 = y := by omega
  have emo : mo / 10 % 10 * 10 + mo % 10 = mo := by omega
  have hdm31 := daysInMonth_le_31 y mo
  have edy : dy / 10 % 10 * 10 + dy % 10 = dy := by omega
  have eh : h / 10 % 10 * 10 + h % 10 = h := by omega
  have emi : mi / 10 % 10 * 10 + mi % 10 = mi := by omega
  have es : s / 10 % 10 * 10 + s % 10 = s := by omega
  have ems : ms / 100 % 10 * 100 + ms / 10 % 10 * 10 + ms % 10 = ms := by
    omega
  rw [ey, emo, edy, eh, emi, es, ems]
  unfold validateDatetime
  have hcond : (1 ≤ y && y ≤ 9999 && 1 ≤ mo && mo ≤ 12 && 1 ≤ dy &&
      dy ≤ daysInMonth y mo && h ≤ 23 && mi ≤ 59 && s ≤ 59 &&
      ms ≤ 999) = true := by
    simp only [Bool.and_eq_true, decide_eq_true_eq]
    refine ⟨?_, hms⟩
    refine ⟨?_, hs⟩
    refine ⟨?_, hmi⟩
    refine ⟨?_, hh⟩
    refine ⟨?_, hd2⟩
    refine ⟨?_, hd1⟩
    refine ⟨?_, hmo2⟩
    refine ⟨?_, hmo1⟩
    exact ⟨hy1, hy2⟩
  rw [hcond]
  rfl

/-- C9: for every filename the parser accepts, rebuilding the filename from
the parsed fields (underscore-joined, millisecond-UTC timestamp, `.csv`)
and re-parsing yields the same five fields. -/
theorem c9_reconstruct_roundtrip {f : List Char} {rn : ReportName}
    (h : ReportName.with_filename f = .ok rn) :
    ∃ rn2, ReportName.with_filename (reconstructFilename rn) = .ok rn2 ∧
      rn2.category = rn.category ∧ rn2.label = rn.label ∧
      rn2.rule = rn.rule ∧ rn2.sheet_id = rn.sheet_id ∧
      rn2.date = rn.date := by
  obtain ⟨ds, c, _, _, hcat, hcatu, hlblu, hrul, hrulu, hsid, hsidn, hc,
    hds, ht⟩ := with_filename_ok_elim h
  obtain ⟨hy1, hy2, hmo1, hmo2, hd1, hd2, hh, hmi, hs, hms⟩ :=
    strptimeMillis_ranges ht
  have hshape : reconstructFilename rn =
      rn.category ++ '_' :: (rn.label ++ '_' :: (rn.rule ++ '_' ::
        (rn.sheet_id ++ '_' :: (formatTimestamp rn.date ++
          ['.', 'c', 's', 'v'])))) := by
    simp [reconstructFilename, List.cons_append, List.append_assoc]
  rw [hshape]
  refine ⟨_, with_filename_build hcat hcatu hlblu hrul hrulu hsid hsidn
    (dateGroupShape_formatTimestamp rn.date) (by decide)
    (strptimeMillis_formatTimestamp hy1 hy2 hmo1 hmo2 hd1 hd2 hh hmi hs
      hms), rfl, rfl, rfl, rfl, rfl⟩

/-- C9 (witness): the round-trip property instantiated at the concrete
filename of the spec's simple example. -/
theorem c9_witness :
    ∃ rn2, ReportName.with_filename (reconstructFilename
      ⟨"abc_def_ghi_jkl_2000-01-01T00:00:00.000Z.csv".toList, "abc".toList,
        "def".toList, "ghi".toList, "jkl".toList,
        ⟨2000, 1, 1, 0, 0, 0, 0⟩⟩) = .ok rn2 ∧
      rn2.category = "abc".toList ∧ rn2.label = "def".toList ∧
      rn2.rule = "ghi".toList ∧ rn2.sheet_id = "jkl".toList ∧
      rn2.date = ⟨2000, 1, 1, 0, 0, 0, 0⟩ :=
  c9_reconstruct_roundtrip
    (f := "abc_def_ghi_jkl_2000-01-01T00:00:00.000Z.csv".toList) rfl

/-- C1: evaluating the tagger at the repository's own test input
(`test_fill_dataframe`): the parse succeeds with the fields shown, but the
tagged frame's columns are only the broadcast `Date` followed by the
original columns — no `Sheet_ID` and no `Label` column is injected, although
the repository's test expects `Date, Category, Sheet_ID, Label, A, B`. -/
theorem c1_fill_dataframe_only_date :
    ReportName.with_filename
        "category_label_rule_sheet_id_2020-01-01T00:00:00.000Z.csv".toList =
      .ok ⟨"category_label_rule_sheet_id_2020-01-01T00:00:00.000Z.csv".toList,
        "category".toList, "label".toList, "rule".toList, "sheet_id".toList,
        ⟨2020, 1, 1, 0, 0, 0, 0⟩⟩ ∧
    fill_dataframe ⟨["A".toList, "B".toList],
        [[Cell.str "A1".toList, Cell.str "B1".toList],
         [Cell.str "A2".toList, Cell.str "B2".toList]]⟩
      ⟨"category_label_rule_sheet_id_2020-01-01T00:00:00.000Z.csv".toList,
        "category".toList, "label".toList, "rule".toList, "sheet_id".toList,
        ⟨2020, 1, 1, 0, 0, 0, 0⟩⟩ =
      ⟨["Date".toList, "A".toList, "B".toList],
        [[Cell.tsUtc ⟨2020, 1, 1, 0, 0, 0, 0⟩, Cell.str "A1".toList,
          Cell.str "B1".toList],
         [Cell.tsUtc ⟨2020, 1, 1, 0, 0, 0, 0⟩, Cell.str "A2".toList,
          Cell.str "B2".toList]]⟩ ∧
    "Sheet_ID".toList ∉ ["Date".toList, "A".toList, "B".toList] ∧
    "Label".toList ∉ ["Date".toList, "A".toList, "B".toList] := by
  refine ⟨rfl, rfl, ?_, ?_⟩ <;> decide

/-- C2 (counterexample): a rule name containing a period is returned
verbatim in the `tables` list, which therefore differs from its normalized
form — `import_dashboard` returns `list(dataframes.keys())` without
applying `_normalize`. -/
theorem c2_counterexample :
    dashboardTables (fun _ => ⟨[], []⟩) []
        [("c_l_my.rule_sid_2000-01-01T00:00:00.000Z.csv".toList,
          "f1".toList)] = ["my.rule".toList] ∧
    _normalize "my.rule".toList = "myrule".toList ∧
    "my.rule".toList ≠ "myrule".toList := by
  refine ⟨rfl, rfl, ?_⟩
  decide

/-- C7 (counterexample): materializing a CSV whose `anomalous` column holds
the text `"False"` yields the boolean TRUE cell — the pandas `bool` cast is
string truthiness, not token parsing — contradicting the claimed falsy
reading. -/
theorem c7_counterexample :
    load_data_into_pandas ⟨["anomalous".toList], [["False".toList]]⟩ =
      ⟨["anomalous".toList], [[Cell.boolean true]]⟩ ∧
    Cell.boolean true ≠ Cell.boolean false := by
  refine ⟨rfl, ?_⟩
  decide

/-- C7 (amended): when a column named `anomalous` is present (at position
`j`), materialization types every cell of that column as a boolean carrying
the Python TRUTHINESS of its text — the empty string becomes false and any
nonempty text, including `"False"`, becomes true — while the cell at every
other position stays the unmodified text cell, with no numeric or date
inference. -/
theorem c7_anomalous_truthiness {csv : CsvData} {j : Nat}
    (hj : csv.header.findIdx? (· = "anomalous".toList) = some j) :
    ∀ (k : Nat) (row : List (List Char)), csv.rows[k]? = some row →
      ∀ (i : Nat) (s : List Char), row[i]? = some s →
        ((load_data_into_pandas csv).rows[k]?.bind fun r : List Cell => r[i]?) =
          some (if i = j then Cell.boolean (pyTruthy s) else Cell.str s) := by
  intro k row hrow i s hcell
  unfold load_data_into_pandas
  rw [hj]
  simp only [List.getElem?_map, hrow, Option.map_some, Option.bind_some,
    List.getElem?_modify, List.getElem?_map, hcell]
  by_cases hij : j = i
  · subst hij
    simp [castBoolCell]
    exact ⟨s, hcell, rfl⟩
  · have hij2 : ¬ i = j := fun h => hij h.symm
    simp [hij, hij2]
    exact hcell

/-- C7 (amended, witness): in a two-column file the `anomalous` column's
`"False"` cell becomes the boolean true and the other column's cell stays
text. -/
theorem c7_witness :
    ((load_data_into_pandas ⟨["a".toList, "anomalous".toList],
        [["x".toList, "False".toList]]⟩).rows[0]?.bind fun r : List Cell => r[1]?) =
      some (Cell.boolean true) ∧
    ((load_data_into_pandas ⟨["a".toList, "anomalous".toList],
        [["x".toList, "False".toList]]⟩).rows[0]?.bind fun r : List Cell => r[0]?) =
      some (Cell.str "x".toList) := by
  constructor
  · have h := @c7_anomalous_truthiness ⟨["a".toList,
      "anomalous".toList], [["x".toList, "False".toList]]⟩ 1 rfl
      0 ["x".toList, "False".toList] rfl 1 "False".toList rfl
    simpa using h
  · have h := @c7_anomalous_truthiness ⟨["a".toList,
      "anomalous".toList], [["x".toList, "False".toList]]⟩ 1 rfl
      0 ["x".toList, "False".toList] rfl 0 "x".toList rfl
    simpa using h

theorem lookupA_cons {β : Type} (e : List Char × β) (l : List (List Char × β))
    (k : List Char) :
    lookupA (e :: l) k = if e.1 = k then some e.2 else lookupA l k := by
  unfold lookupA
  by_cases h : e.1 = k <;> simp [List.find?_cons, h]

/-- Overwriting the value at one key changes exactly that key's lookup. -/
theorem lookupA_map_modify {β : Type} (sid : List Char) (g : β → β) :
    ∀ (tbl : List (List Char × β)) (k : List Char),
      lookupA (tbl.map fun e => if e.1 = sid then (e.1, g e.2) else e) k =
        if k = sid then (lookupA tbl sid).map g else lookupA tbl k := by
  intro tbl
  induction tbl with
  | nil => intro k; simp [lookupA]
  | cons e l ih =>
    intro k
    by_cases he : e.1 = sid
    · by_cases hk : k = sid
      · subst hk
        simp [he, lookupA_cons, ih]
      · simp only [List.map_cons, if_pos he, lookupA_cons]
        have hek : ¬ e.1 = k := fun h2 => hk (h2 ▸ he.symm ▸ rfl)
        have hks : ¬ sid = k := fun h2 => hk h2.symm
        simp [he, hek, hk, hks, ih, lookupA_cons]
    · by_cases hk : k = sid
      · subst hk
        have hek : ¬ e.1 = k := he
        simp [he, hek, lookupA_cons, ih]
      · by_cases hek : e.1 = k
        · simp [he, hek, hk, lookupA_cons]
        · simp [he, hek, hk, lookupA_cons, ih]

theorem lookupA_append {β : Type} (l1 l2 : List (List Char × β))
    (k : List Char) :
    lookupA (l1 ++ l2) k =
      ((l1.find? fun e => e.1 = k).or (l2.find? fun e => e.1 = k)).map
        (·.2) := by
  unfold lookupA
  rw [List.find?_append]

/-- A present key makes `any` true and gives a value. -/
theorem lookupA_isSome_of_any {β : Type} {tbl : List (List Char × β)}
    {sid : List Char} (h : (tbl.any fun e => e.1 = sid) = true) :
    ∃ v, lookupA tbl sid = some v := by
  obtain ⟨e, hmem, he⟩ := List.any_eq_true.mp h
  simp only [decide_eq_true_eq] at he
  have hs : (tbl.find? fun e => e.1 = sid).isSome := by
    rw [List.find?_isSome]
    exact ⟨e, hmem, by simp [he]⟩
  obtain ⟨v, hv⟩ := Option.isSome_iff_exists.mp hs
  exact ⟨v.2, by simp [lookupA, hv]⟩

theorem find?_eq_none_of_not_any {β : Type} {tbl : List (List Char × β)}
    {sid : List Char} (h : (tbl.any fun e => e.1 = sid) = false) :
    (tbl.find? fun e => e.1 = sid) = none := by
  rw [List.find?_eq_none]
  intro x hx
  intro hcontra
  have : tbl.any (fun e => e.1 = sid) = true :=
    List.any_eq_true.mpr ⟨x, hx, hcontra⟩
  rw [h] at this
  exact Bool.false_ne_true this

/-- The `.loc` upsert changes exactly the assigned sheet's entry. -/
theorem updateWatermark_lookup (tbl : List (List Char × Watermark))
    (sid : List Char) (w : Watermark) (k : List Char) :
    lookupA (updateWatermark tbl sid w) k =
      if k = sid then some w else lookupA tbl k := by
  unfold updateWatermark
  split
  · rename_i hany
    have hmod := lookupA_map_modify sid (fun _ => w) tbl k
    by_cases hk : k = sid
    · subst hk
      obtain ⟨v, hv⟩ := lookupA_isSome_of_any hany
      rw [if_pos rfl] at hmod ⊢
      rw [hmod, hv]
      rfl
    · rw [if_neg hk] at hmod ⊢
      exact hmod
  · rename_i hany
    have hfalse : (tbl.any fun e => e.1 = sid) = false := by
      cases h2 : (tbl.any fun e => e.1 = sid)
      · rfl
      · exact absurd h2 hany
    have hnone := find?_eq_none_of_not_any hfalse
    by_cases hk : k = sid
    · subst hk
      rw [lookupA_append, hnone]
      simp [List.find?_cons]
    · rw [lookupA_append]
      have hsk : ¬ sid = k := fun h2 => hk h2.symm
      have h2 : (([(sid, w)]).find? fun e => e.1 = k) = none := by
        simp [List.find?_cons, hsk]
      rw [h2]
      simp [lookupA, Option.or_none, if_neg hk]

/-- Keys of a list are untouched by a value overwrite, and a fresh key is
appended at the end. -/
theorem updateWatermark_keys (tbl : List (List Char × Watermark))
    (sid : List Char) (w : Watermark) :
    (updateWatermark tbl sid w).map (·.1) =
      if sid ∈ tbl.map (·.1) then tbl.map (·.1)
      else tbl.map (·.1) ++ [sid] := by
  unfold updateWatermark
  have hmem : ((tbl.any fun e => e.1 = sid) = true) ↔
      sid ∈ tbl.map (·.1) := by
    constructor
    · intro hany
      obtain ⟨e, hm, he⟩ := List.any_eq_true.mp hany
      simp only [decide_eq_true_eq] at he
      exact List.mem_map.mpr ⟨e, hm, he⟩
    · intro hm
      obtain ⟨e, hm2, he⟩ := List.mem_map.mp hm
      exact List.any_eq_true.mpr ⟨e, hm2, by simp [he]⟩
  split
  · rename_i hany
    rw [if_pos (hmem.mp hany)]
    rw [List.map_map]
    apply List.map_congr_left
    intro e _
    by_cases he : e.1 = sid <;> simp [he]
  · rename_i hany
    have hfalse : ¬ sid ∈ tbl.map (·.1) := fun hm => hany (hmem.mpr hm)
    rw [if_neg hfalse]
    simp

/-- The bucket upsert changes exactly the appended rule's bucket. -/
theorem appendBucket_lookup (b : List (List Char × List DataFrame))
    (k : List Char) (df : DataFrame) (r : List Char) :
    lookupA (appendBucket b k df) r =
      if r = k then some ((lookupA b k).getD [] ++ [df])
      else lookupA b r := by
  unfold appendBucket
  split
  · rename_i hany
    have hmod := lookupA_map_modify k (· ++ [df]) b r
    by_cases hk : r = k
    · subst hk
      obtain ⟨v, hv⟩ := lookupA_isSome_of_any hany
      rw [if_pos rfl] at hmod ⊢
      rw [hmod, hv]
      rfl
    · rw [if_neg hk] at hmod ⊢
      exact hmod
  · rename_i hany
    have hfalse : (b.any fun e => e.1 = k) = false := by
      cases h2 : (b.any fun e => e.1 = k)
      · rfl
      · exact absurd h2 hany
    have hnone := find?_eq_none_of_not_any hfalse
    by_cases hk : r = k
    · subst hk
      rw [lookupA_append, hnone]
      simp [List.find?_cons, lookupA, hnone]
    · rw [lookupA_append]
      have hsk : ¬ k = r := fun h2 => hk h2.symm
      have h2 : (([(k, [df])]).find? fun e => e.1 = r) = none := by
        simp [List.find?_cons, hsk]
      rw [h2]
      simp [lookupA, Option.or_none, if_neg hk]

/-- Keys after a bucket upsert: unchanged for an existing rule, extended by
the new rule otherwise. -/
theorem appendBucket_keys (b : List (List Char × List DataFrame))
    (k : List Char) (df : DataFrame) :
    (appendBucket b k df).map (·.1) =
      if k ∈ b.map (·.1) then b.map (·.1) else b.map (·.1) ++ [k] := by
  unfold appendBucket
  have hmem : ((b.any fun e => e.1 = k) = true) ↔ k ∈ b.map (·.1) := by
    constructor
    · intro hany
      obtain ⟨e, hm, he⟩ := List.any_eq_true.mp hany
      simp only [decide_eq_true_eq] at he
      exact List.mem_map.mpr ⟨e, hm, he⟩
    · intro hm
      obtain ⟨e, hm2, he⟩ := List.mem_map.mp hm
      exact List.any_eq_true.mpr ⟨e, hm2, by simp [he]⟩
  split
  · rename_i hany
    rw [if_pos (hmem.mp hany)]
    rw [List.map_map]
    apply List.map_congr_left
    intro e _
    by_cases he : e.1 = k <;> simp [he]
  · rename_i hany
    have hfalse : ¬ k ∈ b.map (·.1) := fun hm => hany (hmem.mpr hm)
    rw [if_neg hfalse]
    simp

/-- The loop's diagnostics: the batch's error output is the incoming output
followed by exactly one entry — the file's name — per invalid-named file,
in list order. -/
theorem aggLoop_errs (content : List Char → CsvData) :
    ∀ (fs : List (List Char × List Char)) (st : AggState),
      (aggLoop content st fs).errs =
        st.errs ++ (fs.filter fun f => !parseOk f.1).map (·.1) := by
  intro fs
  induction fs with
  | nil => intro st; simp [aggLoop]
  | cons f fs ih =>
    intro st
    obtain ⟨name, id⟩ := f
    rw [aggLoop]
    cases hp : ReportName.with_filename name with
    | error e =>
      have hok : parseOk name = false := by simp [parseOk, hp, Except.toOption]
      rw [ih]
      simp [aggStep, hp, List.filter_cons, hok]
    | ok rn =>
      have hok : parseOk name = true := by simp [parseOk, hp, Except.toOption]
      rw [ih]
      simp [aggStep, hp, List.filter_cons, hok]

/-- The watermark and bucket components of the loop do not depend on the
diagnostics accumulated so far. -/
theorem aggLoop_wm_buckets_indep (content : List Char → CsvData) :
    ∀ (fs : List (List Char × List Char)) (st st' : AggState),
      st.wm = st'.wm → st.buckets = st'.buckets →
      (aggLoop content st fs).wm = (aggLoop content st' fs).wm ∧
      (aggLoop content st fs).buckets =
        (aggLoop content st' fs).buckets := by
  intro fs
  induction fs with
  | nil => intro st st' h1 h2; exact ⟨h1, h2⟩
  | cons f fs ih =>
    intro st st' h1 h2
    obtain ⟨name, id⟩ := f
    rw [aggLoop, aggLoop]
    cases hp : ReportName.with_filename name with
    | error e => exact ih _ _ (by simp [aggStep, hp, h1]) (by simp [aggStep, hp, h2])
    | ok rn => exact ih _ _ (by simp [aggStep, hp, h1]) (by simp [aggStep, hp, h1, h2])

/-- Dropping the invalid-named files from a batch leaves the resulting
watermark table and buckets unchanged: an invalid file contributes nothing
to either output. -/
theorem aggLoop_filter_ok (content : List Char → CsvData) :
    ∀ (fs : List (List Char × List Char)) (st : AggState),
      (aggLoop content st (fs.filter fun f => parseOk f.1)).wm =
        (aggLoop content st fs).wm ∧
      (aggLoop content st (fs.filter fun f => parseOk f.1)).buckets =
        (aggLoop content st fs).buckets := by
  intro fs
  induction fs with
  | nil => intro st; exact ⟨rfl, rfl⟩
  | cons f fs ih =>
    intro st
    obtain ⟨name, id⟩ := f
    cases hp : ReportName.with_filename name with
    | error e =>
      have hok : parseOk name = false := by
        simp [parseOk, hp, Except.toOption]
      rw [List.filter_cons]
      simp only [hok, if_neg Bool.false_ne_true]
      rw [aggLoop]
      have hindep := aggLoop_wm_buckets_indep content fs
        (aggStep content st name id) st
        (by simp [aggStep, hp]) (by simp [aggStep, hp])
      exact ⟨(ih st).1.trans hindep.1.symm, (ih st).2.trans hindep.2.symm⟩
    | ok rn =>
      have hok : parseOk name = true := by
        simp [parseOk, hp, Except.toOption]
      rw [List.filter_cons]
      simp only [hok, if_pos rfl]
      conv_lhs => rw [aggLoop]
      conv_rhs => rw [aggLoop]
      exact ih (aggStep content st name id)

/-- The bucket keys after the loop: fold the successfully parsed rules over
the incoming keys, appending each rule on its first appearance. -/
theorem aggLoop_bucket_keys (content : List Char → CsvData) :
    ∀ (fs : List (List Char × List Char)) (st : AggState),
      (aggLoop content st fs).buckets.map (·.1) =
        (validParses fs).foldl
          (fun acc rn => if rn.rule ∈ acc then acc else acc ++ [rn.rule])
          (st.buckets.map (·.1)) := by
  intro fs
  induction fs with
  | nil => intro st; simp [aggLoop, validParses]
  | cons f fs ih =>
    intro st
    obtain ⟨name, id⟩ := f
    rw [aggLoop]
    cases hp : ReportName.with_filename name with
    | error e =>
      have hv : validParses ((name, id) :: fs) = validParses fs := by
        simp [validParses, List.filterMap_cons, hp, Except.toOption]
      rw [hv, ih]
      simp [aggStep, hp]
    | ok rn =>
      have hv : validParses ((name, id) :: fs) = rn :: validParses fs := by
        simp [validParses, List.filterMap_cons, hp, Except.toOption]
      rw [hv, ih]
      simp only [aggStep, hp, List.foldl_cons]
      rw [appendBucket_keys]

/-- Bucket keys are never duplicated: a rule appears at most once. -/
theorem aggLoop_buckets_nodup (content : List Char → CsvData) :
    ∀ (fs : List (List Char × List Char)) (st : AggState),
      ((st.buckets.map (·.1)).Nodup) →
      ((aggLoop content st fs).buckets.map (·.1)).Nodup := by
  intro fs
  induction fs with
  | nil => intro st h; exact h
  | cons f fs ih =>
    intro st h
    obtain ⟨name, id⟩ := f
    rw [aggLoop]
    cases hp : ReportName.with_filename name with
    | error e =>
      apply ih
      simpa [aggStep, hp] using h
    | ok rn =>
      apply ih
      simp only [aggStep, hp]
      rw [appendBucket_keys]
      split
      · exact h
      · rename_i hnotin
        simp [List.nodup_append, h, hnotin]

/-- Every bucket in the loop's state keeps a nonempty frame list. -/
theorem aggLoop_buckets_nonempty (content : List Char → CsvData) :
    ∀ (fs : List (List Char × List Char)) (st : AggState),
      (∀ e ∈ st.buckets, e.2 ≠ []) →
      ∀ e ∈ (aggLoop content st fs).buckets, e.2 ≠ [] := by
  intro fs
  induction fs with
  | nil => intro st h; exact h
  | cons f fs ih =>
    intro st h
    obtain ⟨name, id⟩ := f
    rw [aggLoop]
    cases hp : ReportName.with_filename name with
    | error e =>
      apply ih
      simpa [aggStep, hp] using h
    | ok rn =>
      apply ih
      simp only [aggStep, hp]
      unfold appendBucket
      split
      · intro e hmem
        obtain ⟨e0, hm0, he0⟩ := List.mem_map.mp hmem
        by_cases h0 : e0.1 = rn.rule
        · rw [if_pos h0] at he0
          subst he0
          simp
        · rw [if_neg h0] at he0
          subst he0
          exact h e0 hm0
      · intro e hmem
        rcases List.mem_append.mp hmem with hm | hm
        · exact h e hm
        · rcases List.mem_singleton.mp hm with rfl
          simp

/-- The watermark entry for a sheet after the loop: the label/date of the
LAST valid file for that sheet in batch order (regardless of timestamps),
and the incoming entry when the batch contains no valid file for it. -/
theorem aggLoop_wm_lookup (content : List Char → CsvData) :
    ∀ (fs : List (List Char × List Char)) (st : AggState) (s : List Char),
      lookupA (aggLoop content st fs).wm s =
        match lastReportFor s fs with
        | some rn => some ⟨rn.label, rn.date⟩
        | none => lookupA st.wm s := by
  intro fs
  induction fs with
  | nil => intro st s; simp [aggLoop, lastReportFor, validParses, List.find?]
  | cons f fs ih =>
    intro st s
    obtain ⟨name, id⟩ := f
    rw [aggLoop]
    cases hp : ReportName.with_filename name with
    | error e =>
      have hv : lastReportFor s ((name, id) :: fs) = lastReportFor s fs := by
        simp [lastReportFor, validParses, List.filterMap_cons, hp,
          Except.toOption]
      rw [hv, ih]
      have hwm : (aggStep content st name id).wm = st.wm := by
        simp [aggStep, hp]
      cases lastReportFor s fs <;> simp [hwm]
    | ok rn =>
      have hv : lastReportFor s ((name, id) :: fs) =
          (lastReportFor s fs).or
            (if rn.sheet_id = s then some rn else none) := by
        simp only [lastReportFor, validParses, List.filterMap_cons, hp,
          Except.toOption, List.reverse_cons, List.find?_append]
        congr 1
        by_cases hcond : rn.sheet_id = s <;> simp [List.find?_cons, hcond]
      rw [hv, ih]
      have hwm : (aggStep content st name id).wm =
          updateWatermark st.wm rn.sheet_id ⟨rn.label, rn.date⟩ := by
        simp [aggStep, hp]
      cases hl : lastReportFor s fs with
      | some rn2 => simp
      | none =>
        simp only [Option.none_or]
        rw [hwm, updateWatermark_lookup]
        by_cases hss : rn.sheet_id = s
        · rw [if_pos hss, if_pos hss.symm]
        · rw [if_neg hss, if_neg fun h2 => hss h2.symm]

/-- The watermark table keeps unique sheet ids across the loop. -/
theorem aggLoop_wm_nodup (content : List Char → CsvData) :
    ∀ (fs : List (List Char × List Char)) (st : AggState),
      ((st.wm.map (·.1)).Nodup) →
      ((aggLoop content st fs).wm.map (·.1)).Nodup := by
  intro fs
  induction fs with
  | nil => intro st h; exact h
  | cons f fs ih =>
    intro st h
    obtain ⟨name, id⟩ := f
    rw [aggLoop]
    cases hp : ReportName.with_filename name with
    | error e =>
      apply ih
      simpa [aggStep, hp] using h
    | ok rn =>
      apply ih
      simp only [aggStep, hp]
      rw [updateWatermark_keys]
      split
      · exact h
      · rename_i hnotin
        simp [List.nodup_append, h, hnotin]

/-- Bucket contents after the loop: the incoming bucket for a rule extended
by exactly the batch's tagged frames for that rule, in order. -/
theorem aggLoop_bucketOf (content : List Char → CsvData) :
    ∀ (fs : List (List Char × List Char)) (st : AggState) (r : List Char),
      (lookupA (aggLoop content st fs).buckets r).getD [] =
        (lookupA st.buckets r).getD [] ++ taggedFor content fs r := by
  intro fs
  induction fs with
  | nil => intro st r; simp [aggLoop, taggedFor]
  | cons f fs ih =>
    intro st r
    obtain ⟨name, id⟩ := f
    rw [aggLoop]
    cases hp : ReportName.with_filename name with
    | error e =>
      have hv : taggedFor content ((name, id) :: fs) r =
          taggedFor content fs r := by
        simp [taggedFor, List.filterMap_cons, hp]
      rw [hv, ih]
      have hb : (aggStep content st name id).buckets = st.buckets := by
        simp [aggStep, hp]
      rw [hb]
    | ok rn =>
      have hb : (aggStep content st name id).buckets =
          appendBucket st.buckets rn.rule
            (fill_dataframe (load_data_into_pandas (content id)) rn) := by
        simp [aggStep, hp]
      rw [ih, hb, appendBucket_lookup]
      by_cases hr : r = rn.rule
      · have hv : taggedFor content ((name, id) :: fs) r =
            fill_dataframe (load_data_into_pandas (content id)) rn ::
              taggedFor content fs r := by
          simp [taggedFor, List.filterMap_cons, hp, hr]
        rw [hv, if_pos hr, hr]
        simp
      · have hrr : ¬ rn.rule = r := fun h2 => hr h2.symm
        have hv : taggedFor content ((name, id) :: fs) r =
            taggedFor content fs r := by
          simp [taggedFor, List.filterMap_cons, hp, hrr]
        rw [hv, if_neg hr]

/-- In a duplicate-free association list, membership determines lookup. -/
theorem mem_lookupA_of_nodup {β : Type} :
    ∀ {l : List (List Char × β)}, ((l.map (·.1)).Nodup) →
      ∀ {k : List Char} {v : β}, (k, v) ∈ l → lookupA l k = some v := by
  intro l
  induction l with
  | nil => intro _ k v hm; simp at hm
  | cons e tl ih =>
    intro hnd k v hm
    rw [List.map_cons, List.nodup_cons] at hnd
    rcases List.mem_cons.mp hm with he | htl
    · subst he
      simp [lookupA_cons]
    · rw [lookupA_cons]
      by_cases hek : e.1 = k
      · exfalso
        apply hnd.1
        rw [hek]
        exact List.mem_map.mpr ⟨(k, v), htl, rfl⟩
      · rw [if_neg hek]
        exact ih hnd.2 htl

/-- Membership in the first-appearance fold of rule names. -/
theorem mem_foldl_insertRule :
    ∀ (l : List ReportName) (acc : List (List Char)) (k : List Char),
      (k ∈ l.foldl
        (fun acc rn => if rn.rule ∈ acc then acc else acc ++ [rn.rule])
        acc) ↔ k ∈ acc ∨ ∃ rn ∈ l, rn.rule = k := by
  intro l
  induction l with
  | nil => intro acc k; simp
  | cons rn l ih =>
    intro acc k
    rw [List.foldl_cons, ih]
    constructor
    · rintro (hacc | hex)
      · by_cases hr : rn.rule ∈ acc
        · rw [if_pos hr] at hacc
          exact Or.inl hacc
        · rw [if_neg hr] at hacc
          rcases List.mem_append.mp hacc with h1 | h1
          · exact Or.inl h1
          · exact Or.inr ⟨rn, List.mem_cons_self rn l,
              (List.mem_singleton.mp h1).symm⟩
      · obtain ⟨rn2, hm, hr2⟩ := hex
        exact Or.inr ⟨rn2, List.mem_cons_of_mem rn hm, hr2⟩
    · rintro (hacc | ⟨rn2, hm, hr2⟩)
      · left
        split
        · exact hacc
        · exact List.mem_append_left _ hacc
      · rcases List.mem_cons.mp hm with he | htl
        · subst he
          subst hr2
          left
          split
          · assumption
          · exact List.mem_append_right _ (List.mem_singleton.mpr rfl)
        · exact Or.inr ⟨rn2, htl, hr2⟩

/-- C5: invalid-named files are skipped, each adding exactly one diagnostic
(the file's name, in order) to the error channel; both the watermark table
and the rule map equal those computed from the validly named files alone;
the run is a total function (it never aborts on a bad name); and a rule
appears as a key exactly when some valid file carries it. -/
theorem c5_invalid_files_skipped (content : List Char → CsvData)
    (wm0 : List (List Char × Watermark))
    (fs : List (List Char × List Char)) :
    (load_files_into_dataframes content wm0 fs).2.2 =
      (fs.filter fun f => !parseOk f.1).map (·.1) ∧
    (load_files_into_dataframes content wm0
        (fs.filter fun f => parseOk f.1)).1 =
      (load_files_into_dataframes content wm0 fs).1 ∧
    (load_files_into_dataframes content wm0
        (fs.filter fun f => parseOk f.1)).2.1 =
      (load_files_into_dataframes content wm0 fs).2.1 ∧
    ∀ k, (k ∈ (load_files_into_dataframes content wm0 fs).2.1.map (·.1)) ↔
      ∃ rn ∈ validParses fs, rn.rule = k := by
  refine ⟨?_, ?_, ?_, ?_⟩
  · simp only [load_files_into_dataframes]
    rw [aggLoop_errs]
    rfl
  · simp only [load_files_into_dataframes]
    exact (aggLoop_filter_ok content fs ⟨wm0, [], []⟩).1
  · simp only [load_files_into_dataframes]
    rw [(aggLoop_filter_ok content fs ⟨wm0, [], []⟩).2]
  · intro k
    simp only [load_files_into_dataframes]
    rw [List.map_map]
    have hkeys : ((aggLoop content ⟨wm0, [], []⟩ fs).buckets.map
        ((fun e : List Char × DataFrame => e.1) ∘
          fun e : List Char × List DataFrame => (e.1, concatAll e.2))) =
        (aggLoop content ⟨wm0, [], []⟩ fs).buckets.map (·.1) := rfl
    rw [hkeys, aggLoop_bucket_keys]
    have hstart : (AggState.mk wm0 [] []).buckets.map (·.1) = [] := rfl
    rw [hstart, mem_foldl_insertRule]
    simp

/-- C6: the watermark table after a batch has at most one row per sheet id
(given the incoming table does), and the row for a sheet equals the
label/date of the LAST validly named file for that sheet in batch order —
timestamps are never compared — falling back to the incoming row. -/
theorem c6_watermark_last_write_wins {content : List Char → CsvData}
    {wm0 : List (List Char × Watermark)}
    {fs : List (List Char × List Char)}
    (hnd : (wm0.map (·.1)).Nodup) :
    ((load_files_into_dataframes content wm0 fs).1.map (·.1)).Nodup ∧
    ∀ s, lookupA (load_files_into_dataframes content wm0 fs).1 s =
      match lastReportFor s fs with
      | some rn => some ⟨rn.label, rn.date⟩
      | none => lookupA wm0 s := by
  constructor
  · simp only [load_files_into_dataframes]
    exact aggLoop_wm_nodup content fs ⟨wm0, [], []⟩ hnd
  · intro s
    simp only [load_files_into_dataframes]
    exact aggLoop_wm_lookup content fs ⟨wm0, [], []⟩ s

/-- C6 (witness): two files share sheet id `sid`; the first carries the
chronologically LATER timestamp (03:00), the second the earlier one
(00:00); the final watermark row for `sid` is the second file's — last
write wins by list position, not by timestamp. -/
theorem c6_witness :
    lookupA (load_files_into_dataframes (fun _ => ⟨[], []⟩) []
        [("cat_l1_rule_sid_2020-01-01T03:00:00.000Z.csv".toList,
          "f1".toList),
         ("cat_l2_rule_sid_2020-01-01T00:00:00.000Z.csv".toList,
          "f2".toList)]).1 "sid".toList =
      some ⟨"l2".toList, ⟨2020, 1, 1, 0, 0, 0, 0⟩⟩ ∧
    (⟨2020, 1, 1, 0, 0, 0, 0⟩ : Timestamp) ≠ ⟨2020, 1, 1, 3, 0, 0, 0⟩ := by
  constructor
  · have h := (@c6_watermark_last_write_wins (fun _ => ⟨[], []⟩) []
      [("cat_l1_rule_sid_2020-01-01T03:00:00.000Z.csv".toList,
        "f1".toList),
       ("cat_l2_rule_sid_2020-01-01T00:00:00.000Z.csv".toList,
        "f2".toList)] (by simp)).2 "sid".toList
    exact h.trans (by rfl)
  · decide

/-- C2 (amended): the `tables` list returned by the entry point holds the
RAW rule names of the successfully aggregated rules, one per rule in order
of first aggregation; `_normalize` is applied only to pick the BigQuery
destination table ids, which are exactly the normalized images of the
response entries. -/
theorem c2_tables_raw_rule_names (content : List Char → CsvData)
    (wm0 : List (List Char × Watermark))
    (fs : List (List Char × List Char)) :
    dashboardTables content wm0 fs =
      (validParses fs).foldl
        (fun acc rn => if rn.rule ∈ acc then acc else acc ++ [rn.rule])
        [] ∧
    bigqueryTableIds (load_files_into_dataframes content wm0 fs).2.1 =
      (dashboardTables content wm0 fs).map _normalize := by
  constructor
  · simp only [dashboardTables, load_files_into_dataframes]
    rw [List.map_map]
    have hkeys : ((aggLoop content ⟨wm0, [], []⟩ fs).buckets.map
        ((fun e : List Char × DataFrame => e.1) ∘
          fun e : List Char × List DataFrame => (e.1, concatAll e.2))) =
        (aggLoop content ⟨wm0, [], []⟩ fs).buckets.map (·.1) := rfl
    rw [hkeys, aggLoop_bucket_keys]
    rfl
  · simp only [dashboardTables, bigqueryTableIds, List.map_map]
    rfl

/-- C10: a file whose name raises either `ValueError` — including the
date-decode failure for a digit-wise well-formed but non-calendar timestamp
— is handled identically to a shape mismatch: one diagnostic is recorded,
the file contributes nothing to the watermark table or the rule map, and
the rest of the batch is processed unchanged. -/
theorem c10_invalid_date_same_handler {content : List Char → CsvData}
    {wm0 : List (List Char × Watermark)} {name id : List Char}
    {rest : List (List Char × List Char)} {e : FilenameError}
    (h : ReportName.with_filename name = .error e) :
    load_files_into_dataframes content wm0 ((name, id) :: rest) =
      ((load_files_into_dataframes content wm0 rest).1,
       (load_files_into_dataframes content wm0 rest).2.1,
       name :: (load_files_into_dataframes content wm0 rest).2.2) := by
  simp only [load_files_into_dataframes]
  conv_lhs => rw [aggLoop]
  have hstep : aggStep content ⟨wm0, [], []⟩ name id =
      ⟨wm0, [], [name]⟩ := by
    simp [aggStep, h]
  rw [hstep]
  have hindep := aggLoop_wm_buckets_indep content rest
    ⟨wm0, [], [name]⟩ ⟨wm0, [], []⟩ rfl rfl
  have herr1 := aggLoop_errs content rest ⟨wm0, [], [name]⟩
  have herr2 := aggLoop_errs content rest ⟨wm0, [], []⟩
  refine Prod.ext ?_ (Prod.ext ?_ ?_)
  · exact hindep.1
  · rw [hindep.2]
  · rw [herr1, herr2]
    rfl

/-- C10 (witness): month 13 passes the digit-shape regex but fails the
date decode — the parser raises the strptime `ValueError`, not the
invalid-filename one — and the aggregator skips the file with one
diagnostic while producing empty outputs. -/
theorem c10_witness :
    ReportName.with_filename
        "a_b_c_d_2000-13-01T00:00:00.000Z.csv".toList =
      .error .invalidDate ∧
    load_files_into_dataframes (fun _ => ⟨[], []⟩) []
        [("a_b_c_d_2000-13-01T00:00:00.000Z.csv".toList, "f".toList)] =
      ([], [], ["a_b_c_d_2000-13-01T00:00:00.000Z.csv".toList]) := by
  refine ⟨rfl, ?_⟩
  have h := @c10_invalid_date_same_handler (fun _ => ⟨[], []⟩) []
    "a_b_c_d_2000-13-01T00:00:00.000Z.csv".toList "f".toList []
    FilenameError.invalidDate rfl
  exact h.trans (by rfl)

/-- Folding fresh column names into an accumulator appends them in order. -/
theorem foldl_insertCol_of_nodup :
    ∀ (h acc : List (List Char)), ((acc ++ h).Nodup) →
      h.foldl (fun acc c => if c ∈ acc then acc else acc ++ [c]) acc =
        acc ++ h := by
  intro h
  induction h with
  | nil => intro acc _; simp
  | cons c h ih =>
    intro acc hnd
    rw [List.foldl_cons]
    have hdisj := (List.nodup_append.mp hnd).2.2
    have hc : c ∉ acc := fun hmem =>
      hdisj hmem (List.mem_cons_self c h)
    rw [if_neg hc, ih (acc ++ [c]) (by simpa using hnd)]
    simp

/-- Folding already-present column names changes nothing. -/
theorem foldl_insertCol_of_subset :
    ∀ (h acc : List (List Char)), (∀ c ∈ h, c ∈ acc) →
      h.foldl (fun acc c => if c ∈ acc then acc else acc ++ [c]) acc =
        acc := by
  intro h
  induction h with
  | nil => intro acc _; simp
  | cons c h ih =>
    intro acc hsub
    rw [List.foldl_cons, if_pos (hsub c (List.mem_cons_self c h))]
    exact ih acc fun c2 hc2 => hsub c2 (List.mem_cons_of_mem c hc2)

/-- When every frame carries the same duplicate-free header, the outer-join
column union is that header. -/
theorem unionHeaders_uniform {H : List (List Char)} (hnd : H.Nodup) :
    ∀ hs : List (List (List Char)), (∀ h ∈ hs, h = H) → hs ≠ [] →
      unionHeaders hs = H := by
  have haux : ∀ hs : List (List (List Char)), (∀ h ∈ hs, h = H) →
      hs.foldl (fun acc h => h.foldl
        (fun acc c => if c ∈ acc then acc else acc ++ [c]) acc) H = H := by
    intro hs
    induction hs with
    | nil => intro _; rfl
    | cons h0 hs ih =>
      intro hall
      rw [List.foldl_cons, hall h0 (List.mem_cons_self h0 hs),
        foldl_insertCol_of_subset H H fun c hc => hc]
      exact ih fun h2 hm => hall h2 (List.mem_cons_of_mem h0 hm)
  intro hs hall hne
  cases hs with
  | nil => exact absurd rfl hne
  | cons h0 hs =>
    unfold unionHeaders
    rw [List.foldl_cons, hall h0 (List.mem_cons_self h0 hs),
      foldl_insertCol_of_nodup H [] (by simpa using hnd)]
    simp only [List.nil_append]
    exact haux hs fun h2 hm => hall h2 (List.mem_cons_of_mem h0 hm)

/-- `findIdx?` on a cons, in map form. -/
theorem findIdx?_cons_eq {α : Type} (p : α → Bool) (a : α) (l : List α) :
    (a :: l).findIdx? p =
      if p a then some 0 else (l.findIdx? p).map (· + 1) := by
  rw [List.findIdx?_cons]
  split <;> simp [List.findIdx?_succ]

/-- In a duplicate-free header, the first index of the name at a position
is that position. -/
theorem findIdx?_nodup_self :
    ∀ (H : List (List Char)), H.Nodup → ∀ (i : Nat) (h : i < H.length),
      H.findIdx? (· = H[i]) = some i := by
  intro H
  induction H with
  | nil => intro _ i h; simp at h
  | cons a H ih =>
    intro hnd i h
    cases i with
    | zero => simp [findIdx?_cons_eq]
    | succ j =>
      have hj : j < H.length := by simpa using h
      have hget : (a :: H)[j + 1] = H[j] := rfl
      rw [hget, findIdx?_cons_eq]
      have hna : a ∉ H := (List.nodup_cons.mp hnd).1
      have hne2 : ¬ a = H[j] := fun he =>
        hna (he ▸ List.getElem_mem hj)
      rw [if_neg (by simpa using hne2), ih (List.nodup_cons.mp hnd).2 j hj]
      rfl

/-- Aligning a well-formed row to its own duplicate-free header is the
identity. -/
theorem alignRow_self {H : List (List Char)} (hnd : H.Nodup)
    {row : List Cell} (hlen : row.length = H.length) :
    alignRow H H row = row := by
  apply List.ext_getElem?
  intro i
  unfold alignRow
  rw [List.getElem?_map]
  by_cases hi : i < H.length
  · rw [List.getElem?_eq_getElem hi]
    simp only [Option.map_some']
    rw [findIdx?_nodup_self H hnd i hi]
    dsimp only
    rw [List.getD_eq_getElem?_getD,
      List.getElem?_eq_getElem (show i < row.length by omega)]
    rfl
  · rw [List.getElem?_eq_none (by omega),
      List.getElem?_eq_none (show row.length ≤ i by omega)]
    rfl

/-- Concatenating frames that share one duplicate-free header with
well-formed rows stacks their rows verbatim under that header: the
alignment and NaN padding of the outer join never fire. -/
theorem concatAll_uniform {H : List (List Char)} (hnd : H.Nodup)
    {dfs : List DataFrame} (hne : dfs ≠ [])
    (hH : ∀ d ∈ dfs, d.header = H)
    (hlen : ∀ d ∈ dfs, ∀ row ∈ d.rows, row.length = H.length) :
    concatAll dfs = ⟨H, (dfs.map (·.rows)).flatten⟩ := by
  have hcols : unionHeaders (dfs.map (·.header)) = H := by
    apply unionHeaders_uniform hnd
    · intro h hm
      obtain ⟨d, hd, hdh⟩ := List.mem_map.mp hm
      exact hdh ▸ hH d hd
    · simpa using hne
  simp only [concatAll, hcols]
  simp only [DataFrame.mk.injEq, true_and]
  congr 1
  apply List.map_congr_left
  intro d hd
  rw [hH d hd]
  conv_rhs => rw [← List.map_id d.rows]
  apply List.map_congr_left
  intro row hrow
  exact alignRow_self hnd (hlen d hd row hrow)

/-- C8: when a rule's successfully processed files share one duplicate-free
tagged header and well-formed rows (one cell per column), the dataset the
batch produces for that rule carries that header and exactly the stacked
rows of the rule's tagged frames in file order: its row count is the sum of
their row counts, and each tagged frame is a valid file's materialized
table with only a prepended broadcast `Date` cell per row and normalized
column names. -/
theorem c8_rule_concat_preserves_rows {content : List Char → CsvData}
    {wm0 : List (List Char × Watermark)}
    {fs : List (List Char × List Char)} {r : List Char} {df : DataFrame}
    {H : List (List Char)}
    (hmem : (r, df) ∈ (load_files_into_dataframes content wm0 fs).2.1)
    (hH : ∀ d ∈ taggedFor content fs r, d.header = H)
    (hndH : H.Nodup)
    (hwf : ∀ d ∈ taggedFor content fs r, ∀ row ∈ d.rows,
      row.length = H.length) :
    df.header = H ∧
    taggedFor content fs r ≠ [] ∧
    df.rows = ((taggedFor content fs r).map (·.rows)).flatten ∧
    df.rows.length =
      ((taggedFor content fs r).map fun d => d.rows.length).sum ∧
    ∀ d ∈ taggedFor content fs r, ∃ f, f ∈ fs ∧ ∃ rn,
      ReportName.with_filename f.1 = .ok rn ∧ rn.rule = r ∧
      d.rows = (load_data_into_pandas (content f.2)).rows.map
        (fun row => Cell.tsUtc rn.date :: row) ∧
      d.header = ("Date".toList ::
        (load_data_into_pandas (content f.2)).header).map _normalize := by
  simp only [load_files_into_dataframes] at hmem
  obtain ⟨e, hemem, heq⟩ := List.mem_map.mp hmem
  obtain ⟨r2, l⟩ := e
  simp only [Prod.mk.injEq] at heq
  obtain ⟨hr2, hdf⟩ := heq
  subst hr2
  have hnd := aggLoop_buckets_nodup content fs ⟨wm0, [], []⟩ (by simp)
  have hlook := mem_lookupA_of_nodup hnd hemem
  have hbucket := aggLoop_bucketOf content fs ⟨wm0, [], []⟩ r2
  rw [hlook] at hbucket
  have hl : l = taggedFor content fs r2 := by simpa using hbucket
  have hne : l ≠ [] :=
    aggLoop_buckets_nonempty content fs ⟨wm0, [], []⟩ (by simp)
      (r2, l) hemem
  subst hdf
  subst hl
  rw [concatAll_uniform hndH hne hH hwf]
  refine ⟨rfl, hne, rfl, ?_, ?_⟩
  · rw [List.length_flatten, List.map_map]
    rfl
  · intro d hd
    obtain ⟨f, hf, hgf⟩ := List.mem_filterMap.mp hd
    refine ⟨f, hf, ?_⟩
    revert hgf
    cases hp : ReportName.with_filename f.1 with
    | error e2 => intro hgf; simp at hgf
    | ok rn =>
      intro hgf
      dsimp only at hgf
      by_cases hrr : rn.rule = r2
      · rw [if_pos hrr] at hgf
        simp only [Option.some.injEq] at hgf
        subst hgf
        exact ⟨rn, rfl, hrr, rfl, rfl⟩
      · rw [if_neg hrr] at hgf
        simp at hgf

/-- C8 (witness): two valid files for rule `rule` (1 and 2 data rows) with
the shared tagged header `Date, A`; the rule's concatenated dataset carries
that header and has 1 + 2 rows. -/
theorem c8_witness :
    ∃ df, ("rule".toList, df) ∈
      (load_files_into_dataframes
        (fun i => if i = "f1".toList then
            ⟨["A".toList], [["a1".toList]]⟩
          else ⟨["A".toList], [["a2".toList], ["a3".toList]]⟩)
        []
        [("cat_l_rule_s1_2020-01-01T00:00:00.000Z.csv".toList,
          "f1".toList),
         ("cat_l_rule_s2_2020-01-01T00:00:00.000Z.csv".toList,
          "f2".toList)]).2.1 ∧
      df.header = ["Date".toList, "A".toList] ∧ df.rows.length = 1 + 2 := by
  have hmem : ("rule".toList, concatAll (taggedFor
      (fun i => if i = "f1".toList then
          ⟨["A".toList], [["a1".toList]]⟩
        else ⟨["A".toList], [["a2".toList], ["a3".toList]]⟩)
      [("cat_l_rule_s1_2020-01-01T00:00:00.000Z.csv".toList,
        "f1".toList),
       ("cat_l_rule_s2_2020-01-01T00:00:00.000Z.csv".toList,
        "f2".toList)] "rule".toList)) ∈
      (load_files_into_dataframes
        (fun i => if i = "f1".toList then
            ⟨["A".toList], [["a1".toList]]⟩
          else ⟨["A".toList], [["a2".toList], ["a3".toList]]⟩)
        []
        [("cat_l_rule_s1_2020-01-01T00:00:00.000Z.csv".toList,
          "f1".toList),
         ("cat_l_rule_s2_2020-01-01T00:00:00.000Z.csv".toList,
          "f2".toList)]).2.1 := by decide
  have h := c8_rule_concat_preserves_rows
    (H := ["Date".toList, "A".toList]) hmem (by decide) (by decide)
    (by decide)
  exact ⟨_, hmem, h.1, (h.2.2.2.1).trans (by decide)⟩
